import Mathlib

/-!
Verification of the dose-comparison workflow in
`tasks/task_09_CSG_instantaneous_dose_tallies/compare_dose_simulation_with_back_of_envelope.py`.

Python floats are modelled as exact rationals for every input quantity; dose
values, which involve `math.pi`, are modelled as real numbers.  The external
dose-coefficient dataset returned by
`openmc.data.dose_coefficients(particle, geometry="AP")` is modelled as an
arbitrary list of `(energy, coefficient)` pairs, passed explicitly to every
definition that reads it.
-/

namespace DoseWorkshop

/-- Absolute value of a rational, written as `np.abs` computes it. -/
def absq (x : ℚ) : ℚ := if x < 0 then -x else x

/-- The explicit absolute value agrees with the lattice one. -/
theorem absq_eq_abs (x : ℚ) : absq x = |x| := by
  unfold absq
  rcases lt_or_ge x 0 with h | h
  · rw [if_pos h, abs_of_neg h]
  · rw [if_neg (not_lt.mpr h), abs_of_nonneg h]

/-- Embedding of `np.argmin(np.abs(np.array(energy) - particle_energy))`
(source line 42): the index of the first element of the list minimising the
absolute difference to `q`.  `np.argmin` returns the first index attaining
the minimum, so the head is kept unless the tail holds a strictly smaller
value. -/
def argmin_abs (q : ℚ) : List ℚ → ℕ
  | [] => 0
  | [_] => 0
  | e :: e2 :: rest =>
    if absq ((e2 :: rest).getD (argmin_abs q (e2 :: rest)) 0 - q) < absq (e - q) then
      argmin_abs q (e2 :: rest) + 1
    else 0

/-- The index returned by `argmin_abs` is in bounds for a nonempty list. -/
theorem argmin_abs_lt_length (q : ℚ) : ∀ l : List ℚ, l ≠ [] → argmin_abs q l < l.length
  | [], h => absurd rfl h
  | [_], _ => by simp [argmin_abs]
  | e :: e2 :: rest, _ => by
    have ih : argmin_abs q (e2 :: rest) < rest.length + 1 := by
      simpa using argmin_abs_lt_length q (e2 :: rest) (by simp)
    by_cases hlt : absq ((e2 :: rest).getD (argmin_abs q (e2 :: rest)) 0 - q) < absq (e - q)
    · simp only [argmin_abs, if_pos hlt, List.length_cons]
      omega
    · simp only [argmin_abs, if_neg hlt, List.length_cons]
      omega

/-- The element at the index returned by `argmin_abs` minimises the absolute
difference to `q` over the whole list. -/
theorem argmin_abs_min (q : ℚ) : ∀ (l : List ℚ) (j : ℕ), j < l.length →
    |l.getD (argmin_abs q l) 0 - q| ≤ |l.getD j 0 - q|
  | [], j, h => by simp at h
  | [e], j, h => by
    have hj : j = 0 := by simpa using Nat.lt_one_iff.mp (by simpa using h)
    subst hj
    simp [argmin_abs]
  | e :: e2 :: rest, j, h => by
    have ih := fun (j2 : ℕ) (h2 : j2 < (e2 :: rest).length) => argmin_abs_min q (e2 :: rest) j2 h2
    by_cases hlt : absq ((e2 :: rest).getD (argmin_abs q (e2 :: rest)) 0 - q) < absq (e - q)
    · simp only [argmin_abs, if_pos hlt]
      match j with
      | 0 => simpa [absq_eq_abs] using hlt.le
      | j2 + 1 =>
        have hj2 : j2 < (e2 :: rest).length := by
          simpa using Nat.succ_lt_succ_iff.mp (by simpa using h)
        simpa using ih j2 hj2
    · simp only [argmin_abs, if_neg hlt]
      match j with
      | 0 => simp
      | j2 + 1 =>
        have hj2 : j2 < (e2 :: rest).length := by
          simpa using Nat.succ_lt_succ_iff.mp (by simpa using h)
        have h1 : |e - q| ≤ |(e2 :: rest).getD (argmin_abs q (e2 :: rest)) 0 - q| := by
          simpa [absq_eq_abs] using le_of_not_lt hlt
        have h2 := ih j2 hj2
        simpa using le_trans h1 h2

/-- When one index is a strict unique minimiser of the absolute difference,
`argmin_abs` returns exactly that index. -/
theorem argmin_abs_eq_of_unique (q : ℚ) (l : List ℚ) (i : ℕ) (hi : i < l.length)
    (hu : ∀ j, j < l.length → j ≠ i → |l.getD i 0 - q| < |l.getD j 0 - q|) :
    argmin_abs q l = i := by
  by_contra hne
  have hl : l ≠ [] := by
    intro h0
    subst h0
    simp at hi
  have ha : argmin_abs q l < l.length := argmin_abs_lt_length q l hl
  have h1 := argmin_abs_min q l i hi
  have h2 := hu (argmin_abs q l) ha hne
  exact absurd h1 (not_le.mpr h2)

/-- List lookup with default agrees with `List.get` on valid indices. -/
theorem getD_eq_get_q : ∀ (l : List ℚ) (n : ℕ) (h : n < l.length), l.getD n 0 = l.get ⟨n, h⟩
  | _ :: _, 0, _ => rfl
  | _ :: l, n + 1, h => getD_eq_get_q l n (by simpa using Nat.succ_lt_succ_iff.mp (by simpa using h))

/-- Mapping then indexing equals indexing then applying the function. -/
theorem get_map_pair (f : ℚ × ℚ → ℚ) :
    ∀ (l : List (ℚ × ℚ)) (n : ℕ) (h : n < (List.map f l).length) (h2 : n < l.length),
      (List.map f l).get ⟨n, h⟩ = f (l.get ⟨n, h2⟩)
  | _ :: _, 0, _, _ => rfl
  | _ :: l, n + 1, h, h2 =>
    get_map_pair f l n (by simpa using Nat.succ_lt_succ_iff.mp (by simpa using h))
      (by simpa using Nat.succ_lt_succ_iff.mp (by simpa using h2))

/-- Embedding of source lines 39-46: obtain the `(energy, coefficient)` table
and take the coefficient at the index of the tabulated energy closest to
`particle_energy`. -/
def dose_coefficients_lookup (table : List (ℚ × ℚ)) (particle_energy : ℚ) : ℚ :=
  let energy := table.map Prod.fst
  let closest_index := argmin_abs particle_energy energy
  (table.map Prod.snd).getD closest_index 0

/-- The lookup reads the coefficient of the row at the `argmin_abs` index. -/
theorem dose_coefficients_lookup_eq_get (table : List (ℚ × ℚ)) (q : ℚ)
    (h0 : 0 < table.length) :
    ∃ hlt : argmin_abs q (table.map Prod.fst) < table.length,
      dose_coefficients_lookup table q = (table.get ⟨argmin_abs q (table.map Prod.fst), hlt⟩).2 := by
  have hne : table.map Prod.fst ≠ [] := by
    intro h
    rw [List.map_eq_nil_iff] at h
    subst h
    simp at h0
  have hlt0 : argmin_abs q (table.map Prod.fst) < (table.map Prod.fst).length :=
    argmin_abs_lt_length q (table.map Prod.fst) hne
  have hlt : argmin_abs q (table.map Prod.fst) < table.length := by
    simpa using hlt0
  refine ⟨hlt, ?_⟩
  unfold dose_coefficients_lookup
  have hlen : argmin_abs q (table.map Prod.fst) < (table.map Prod.snd).length := by
    simpa using hlt
  rw [getD_eq_get_q _ _ hlen, get_map_pair Prod.snd table _ hlen hlt]

/-- Embedding of `manual_dose_calc` (source lines 14-49): dose in sievert from
an isotropic point source, dividing the shot's particle count by the sphere
surface area at the given distance, multiplying by the nearest-energy AP dose
coefficient from the table and by the picosievert-to-sievert factor. -/
noncomputable def manual_dose_calc (table : List (ℚ × ℚ)) (particles_per_shot : ℚ)
    (distance_from_source : ℚ) (particle_energy : ℚ) : ℝ :=
  let sphere_surface_area : ℝ := 4 * Real.pi * (distance_from_source : ℝ) ^ 2
  let particles_per_unit_area : ℝ := (particles_per_shot : ℝ) / sphere_surface_area
  let dose_coeff : ℚ := dose_coefficients_lookup table particle_energy
  particles_per_unit_area * (dose_coeff : ℝ) * 1e-12

/-- A small strictly-increasing coefficient table used to instantiate the
parametrised theorems at concrete inputs. -/
def demo_table : List (ℚ × ℚ) := [(1, 2), (3, 5), (10, 7)]

/-- C1: for every particle count, positive distance and energy, the analytic
estimate equals `particles_per_shot / (4·π·distance²)` times the coefficient
of a table row whose energy is nearest (by absolute difference) to the queried
energy, times `1e-12`. -/
theorem manual_dose_calc_formula (table : List (ℚ × ℚ)) (p d E : ℚ)
    (hd : 0 < d) (h0 : 0 < table.length) :
    ∃ i : Fin table.length,
      (∀ j : Fin table.length, |(table.get i).1 - E| ≤ |(table.get j).1 - E|) ∧
      manual_dose_calc table p d E
        = (p : ℝ) / (4 * Real.pi * (d : ℝ) ^ 2) * ((table.get i).2 : ℝ) * 1e-12 := by
  obtain ⟨hlt, hget⟩ := dose_coefficients_lookup_eq_get table E h0
  refine ⟨⟨argmin_abs E (table.map Prod.fst), hlt⟩, ?_, ?_⟩
  · intro j
    have hjE : (j : ℕ) < (table.map Prod.fst).length := by simp
    have haE : argmin_abs E (table.map Prod.fst) < (table.map Prod.fst).length := by
      simpa using hlt
    have hmin := argmin_abs_min E (table.map Prod.fst) (j : ℕ) hjE
    rw [getD_eq_get_q _ _ haE, getD_eq_get_q _ _ hjE,
      get_map_pair Prod.fst table _ haE hlt, get_map_pair Prod.fst table _ hjE j.isLt] at hmin
    simpa using hmin
  · unfold manual_dose_calc
    rw [hget]

/-- Instantiation of the C1 theorem at a concrete table and inputs. -/
theorem manual_dose_calc_formula_witness :
    (0 : ℚ) < 2 ∧ 0 < demo_table.length ∧
      ∃ i : Fin demo_table.length,
        (∀ j : Fin demo_table.length, |(demo_table.get i).1 - 4| ≤ |(demo_table.get j).1 - 4|) ∧
        manual_dose_calc demo_table 7 2 4
          = (7 : ℝ) / (4 * Real.pi * (2 : ℝ) ^ 2) * ((demo_table.get i).2 : ℝ) * 1e-12 :=
  ⟨by decide, by decide, manual_dose_calc_formula demo_table 7 2 4 (by decide) (by decide)⟩

/-- C4: the dose-coefficient lookup (a) returns the coefficient of a row whose
energy has minimum absolute difference to the query, (b) is deterministic,
(c) returns the exact coefficient of a row whose energy equals the query, and
(d) on queries at or beyond either end of a strictly-increasing table returns
the nearest endpoint's coefficient. -/
theorem dose_coefficients_lookup_spec (table : List (ℚ × ℚ)) (q : ℚ)
    (h0 : 0 < table.length)
    (hsorted : ∀ i j : Fin table.length, (i : ℕ) < (j : ℕ) → (table.get i).1 < (table.get j).1) :
    (∃ i : Fin table.length,
        dose_coefficients_lookup table q = (table.get i).2 ∧
        ∀ j : Fin table.length, |(table.get i).1 - q| ≤ |(table.get j).1 - q|) ∧
    (∀ q2 : ℚ, q2 = q → dose_coefficients_lookup table q2 = dose_coefficients_lookup table q) ∧
    (∀ e c : ℚ, (e, c) ∈ table → dose_coefficients_lookup table e = c) ∧
    (q ≤ (table.get ⟨0, h0⟩).1 → dose_coefficients_lookup table q = (table.get ⟨0, h0⟩).2) ∧
    ((table.get ⟨table.length - 1, by omega⟩).1 ≤ q →
      dose_coefficients_lookup table q = (table.get ⟨table.length - 1, by omega⟩).2) := by
  have hlenE : (table.map Prod.fst).length = table.length := by simp
  have hgetE : ∀ (n : ℕ) (hn : n < table.length),
      (table.map Prod.fst).getD n 0 = (table.get ⟨n, hn⟩).1 := by
    intro n hn
    rw [getD_eq_get_q _ _ (by simpa [hlenE] using hn), get_map_pair Prod.fst table _ _ hn]
  have key : ∀ (r : ℚ) (i : ℕ) (hi : i < table.length),
      (∀ j : Fin table.length, (j : ℕ) ≠ i → |(table.get ⟨i, hi⟩).1 - r| < |(table.get j).1 - r|) →
      dose_coefficients_lookup table r = (table.get ⟨i, hi⟩).2 := by
    intro r i hi hu
    have ha : argmin_abs r (table.map Prod.fst) = i := by
      apply argmin_abs_eq_of_unique r (table.map Prod.fst) i (by simpa [hlenE] using hi)
      intro j hj hne
      have hj2 : j < table.length := by simpa [hlenE] using hj
      rw [hgetE i hi, hgetE j hj2]
      exact hu ⟨j, hj2⟩ hne
    obtain ⟨hlt, hget⟩ := dose_coefficients_lookup_eq_get table r h0
    rw [hget]
    have hfin : (⟨argmin_abs r (table.map Prod.fst), hlt⟩ : Fin table.length) = ⟨i, hi⟩ :=
      Fin.mk_eq_mk.mpr ha
    rw [hfin]
  refine ⟨?_, ?_, ?_, ?_, ?_⟩
  · obtain ⟨hlt, hget⟩ := dose_coefficients_lookup_eq_get table q h0
    refine ⟨⟨argmin_abs q (table.map Prod.fst), hlt⟩, hget, ?_⟩
    intro j
    have hjE : (j : ℕ) < (table.map Prod.fst).length := by simp
    have haE : argmin_abs q (table.map Prod.fst) < (table.map Prod.fst).length := by
      simpa [hlenE] using hlt
    have hmin := argmin_abs_min q (table.map Prod.fst) (j : ℕ) hjE
    rwa [hgetE _ hlt, hgetE _ j.isLt] at hmin
  · intro q2 hq
    rw [hq]
  · intro e c hmem
    obtain ⟨i, hi⟩ := List.mem_iff_get.mp hmem
    have he : (table.get i).1 = e := by rw [hi]
    have hres := key e (i : ℕ) i.isLt ?_
    · rw [hres]
      have : table.get ⟨(i : ℕ), i.isLt⟩ = (e, c) := by
        rw [show (⟨(i : ℕ), i.isLt⟩ : Fin table.length) = i from Fin.ext rfl, hi]
      rw [this]
    · intro j hne
      have h1 : |(table.get ⟨(i : ℕ), i.isLt⟩).1 - e| = 0 := by
        rw [show (⟨(i : ℕ), i.isLt⟩ : Fin table.length) = i from Fin.ext rfl, he]
        simp
      rw [h1]
      have hne2 : (table.get j).1 ≠ e := by
        rcases Nat.lt_or_ge (j : ℕ) (i : ℕ) with hlt | hge
        · have := hsorted j i hlt
          rw [he] at this
          exact ne_of_lt this
        · have hlt2 : (i : ℕ) < (j : ℕ) := by omega
          have := hsorted i j hlt2
          rw [he] at this
          exact ne_of_gt this
      have : (table.get j).1 - e ≠ 0 := sub_ne_zero.mpr hne2
      exact abs_pos.mpr this
  · intro hq
    apply key q 0 h0
    intro j hne
    have hj0 : 0 < (j : ℕ) := Nat.pos_of_ne_zero (fun h => hne (by simpa using congrArg id h))
    have hlt := hsorted ⟨0, h0⟩ j hj0
    have h0q : q ≤ (table.get ⟨0, h0⟩).1 := hq
    rw [abs_of_nonneg (by linarith), abs_of_nonneg (by linarith)]
    linarith
  · intro hq
    apply key q (table.length - 1) (by omega)
    intro j hne
    have hjlt : (j : ℕ) < table.length - 1 := by
      have := j.isLt
      omega
    have hlt := hsorted j ⟨table.length - 1, by omega⟩ hjlt
    have hlq : (table.get ⟨table.length - 1, by omega⟩).1 ≤ q := hq
    rw [abs_of_nonpos (by linarith), abs_of_nonpos (by linarith)]
    linarith

/-- Instantiation of the C4 theorem at a concrete strictly-increasing table. -/
theorem dose_coefficients_lookup_spec_witness :
    0 < demo_table.length ∧
    (∀ i j : Fin demo_table.length, (i : ℕ) < (j : ℕ) →
      (demo_table.get i).1 < (demo_table.get j).1) ∧
    ((∃ i : Fin demo_table.length,
        dose_coefficients_lookup demo_table 4 = (demo_table.get i).2 ∧
        ∀ j : Fin demo_table.length, |(demo_table.get i).1 - 4| ≤ |(demo_table.get j).1 - 4|) ∧
    (∀ q2 : ℚ, q2 = 4 →
      dose_coefficients_lookup demo_table q2 = dose_coefficients_lookup demo_table 4) ∧
    (∀ e c : ℚ, (e, c) ∈ demo_table → dose_coefficients_lookup demo_table e = c) ∧
    ((4 : ℚ) ≤ (demo_table.get ⟨0, by decide⟩).1 →
      dose_coefficients_lookup demo_table 4 = (demo_table.get ⟨0, by decide⟩).2) ∧
    ((demo_table.get ⟨demo_table.length - 1, by decide⟩).1 ≤ 4 →
      dose_coefficients_lookup demo_table 4 = (demo_table.get ⟨demo_table.length - 1, by decide⟩).2)) :=
  ⟨by decide, by decide, dose_coefficients_lookup_spec demo_table 4 (by decide) (by decide)⟩

/-- The analytic estimate written as a single fraction. -/
theorem manual_dose_calc_eq_div (table : List (ℚ × ℚ)) (p d E : ℚ) :
    manual_dose_calc table p d E
      = ((p : ℝ) * ((dose_coefficients_lookup table E : ℚ) : ℝ) * 1e-12)
        / (4 * Real.pi * (d : ℝ) ^ 2) := by
  unfold manual_dose_calc
  ring

/-- C3: with identical source parameters the analytic estimate does not
increase with distance; the cross-multiplied inverse-square identity holds
exactly; and whenever the estimate at the larger distance is nonzero the ratio
of estimates is exactly `(d2 / d1)²`. -/
theorem manual_dose_calc_inverse_square (table : List (ℚ × ℚ)) (p d1 d2 E : ℚ)
    (h1 : 0 < d1) (h12 : d1 < d2) (hp : 0 ≤ p)
    (hc : 0 ≤ dose_coefficients_lookup table E) :
    manual_dose_calc table p d2 E ≤ manual_dose_calc table p d1 E ∧
    manual_dose_calc table p d1 E * (d1 : ℝ) ^ 2
      = manual_dose_calc table p d2 E * (d2 : ℝ) ^ 2 ∧
    (manual_dose_calc table p d2 E ≠ 0 →
      manual_dose_calc table p d1 E / manual_dose_calc table p d2 E
        = ((d2 : ℝ) / (d1 : ℝ)) ^ 2) := by
  have hd1 : (0 : ℝ) < (d1 : ℝ) := by exact_mod_cast h1
  have h12R : (d1 : ℝ) < (d2 : ℝ) := by exact_mod_cast h12
  have hd2 : (0 : ℝ) < (d2 : ℝ) := lt_trans hd1 h12R
  have hd1ne : (d1 : ℝ) ≠ 0 := ne_of_gt hd1
  have hd2ne : (d2 : ℝ) ≠ 0 := ne_of_gt hd2
  have hpine : Real.pi ≠ 0 := Real.pi_ne_zero
  have hN : (0 : ℝ) ≤ (p : ℝ) * ((dose_coefficients_lookup table E : ℚ) : ℝ) * 1e-12 := by
    have hp' : (0 : ℝ) ≤ (p : ℝ) := by exact_mod_cast hp
    have hc' : (0 : ℝ) ≤ ((dose_coefficients_lookup table E : ℚ) : ℝ) := by exact_mod_cast hc
    have : (0 : ℝ) ≤ (1e-12 : ℝ) := by norm_num
    exact mul_nonneg (mul_nonneg hp' hc') this
  have hB1 : (0 : ℝ) < 4 * Real.pi * (d1 : ℝ) ^ 2 :=
    mul_pos (mul_pos (by norm_num) Real.pi_pos) (pow_pos hd1 2)
  have hB12 : 4 * Real.pi * (d1 : ℝ) ^ 2 ≤ 4 * Real.pi * (d2 : ℝ) ^ 2 := by
    have hsq : (d1 : ℝ) ^ 2 ≤ (d2 : ℝ) ^ 2 := by nlinarith
    have h4pi : (0 : ℝ) ≤ 4 * Real.pi := by positivity
    exact mul_le_mul_of_nonneg_left hsq h4pi
  refine ⟨?_, ?_, ?_⟩
  · rw [manual_dose_calc_eq_div, manual_dose_calc_eq_div]
    gcongr
  · rw [manual_dose_calc_eq_div, manual_dose_calc_eq_div]
    field_simp
    ring
  · intro hne
    have hNne : (p : ℝ) * ((dose_coefficients_lookup table E : ℚ) : ℝ) * 1e-12 ≠ 0 := by
      intro h0
      apply hne
      rw [manual_dose_calc_eq_div, h0, zero_div]
    rw [manual_dose_calc_eq_div, manual_dose_calc_eq_div]
    field_simp
    ring

/-- Instantiation of the C3 theorem at concrete inputs. -/
theorem manual_dose_calc_inverse_square_witness :
    (0 : ℚ) < 1 ∧ (1 : ℚ) < 2 ∧ (0 : ℚ) ≤ 7 ∧
      (0 : ℚ) ≤ dose_coefficients_lookup demo_table 1 ∧
    (manual_dose_calc demo_table 7 2 1 ≤ manual_dose_calc demo_table 7 1 1 ∧
      manual_dose_calc demo_table 7 1 1 * (((1 : ℚ) : ℝ)) ^ 2
        = manual_dose_calc demo_table 7 2 1 * (((2 : ℚ) : ℝ)) ^ 2 ∧
      (manual_dose_calc demo_table 7 2 1 ≠ 0 →
        manual_dose_calc demo_table 7 1 1 / manual_dose_calc demo_table 7 2 1
          = (((2 : ℚ) : ℝ) / ((1 : ℚ) : ℝ)) ^ 2)) :=
  ⟨by norm_num, by norm_num, by norm_num,
    by norm_num [dose_coefficients_lookup, argmin_abs, demo_table, absq],
    manual_dose_calc_inverse_square demo_table 7 1 2 1
      (by norm_num) (by norm_num) (by norm_num)
      (by norm_num [dose_coefficients_lookup, argmin_abs, demo_table, absq])⟩

/-- An `openmc.Sphere`: centre `(x0, 0, 0)`, radius `r`, and its boundary
condition string (the library default is `"transmission"`). -/
structure Sphere where
  x0 : ℚ
  r : ℚ
  boundary_type : String
deriving DecidableEq

/-- Source line 63: `openmc.Sphere(r=15, x0=distance_from_source - 15.1)`. -/
def phantom_surface (distance_from_source : ℚ) : Sphere :=
  ⟨distance_from_source - 15.1, 15, "transmission"⟩

/-- Source line 65: `openmc.Sphere(r=distance_from_source, boundary_type="vacuum")`. -/
def outer_surface (distance_from_source : ℚ) : Sphere :=
  ⟨0, distance_from_source, "vacuum"⟩

/-- The negative half-space `-s` of a sphere surface: strictly inside it. -/
def neg_side (s : Sphere) (x y z : ℚ) : Prop :=
  (x - s.x0) ^ 2 + y ^ 2 + z ^ 2 < s.r ^ 2

/-- The positive half-space `+s` of a sphere surface: strictly outside it. -/
def pos_side (s : Sphere) (x y z : ℚ) : Prop :=
  s.r ^ 2 < (x - s.x0) ^ 2 + y ^ 2 + z ^ 2

/-- Source line 67: `phantom_region = -phantom_surface`. -/
def phantom_region (d x y z : ℚ) : Prop := neg_side (phantom_surface d) x y z

/-- Source line 70: `void_region = -outer_surface & +phantom_surface`. -/
def void_region (d x y z : ℚ) : Prop :=
  neg_side (outer_surface d) x y z ∧ pos_side (phantom_surface d) x y z

/-- The phantom ball fits strictly inside the outer boundary ball: the centre
offset magnitude plus the phantom radius stays below the boundary radius. -/
def nested_in_boundary (d : ℚ) : Prop :=
  |(phantom_surface d).x0| + (phantom_surface d).r < (outer_surface d).r

/-- All phantom-region points lie strictly inside the outer boundary. -/
def phantom_inside_boundary (d : ℚ) : Prop :=
  ∀ x y z : ℚ, phantom_region d x y z → neg_side (outer_surface d) x y z

/-- The x-coordinate of the phantom face nearer the origin. -/
def phantom_near_face (d : ℚ) : ℚ := (phantom_surface d).x0 - (phantom_surface d).r

/-- The x-coordinate of the phantom face farther from the origin. -/
def phantom_far_face (d : ℚ) : ℚ := (phantom_surface d).x0 + (phantom_surface d).r

/-- C7 counterexample: at distance 100 the phantom face closest to the source
sits at offset `100 - 2·15 - 0.1 = 69.9`, not at `100 - 15 - 0.1`; it is the
sphere's centre that the code places at `distance - 15 - 0.1`. -/
theorem phantom_near_face_counterexample :
    phantom_near_face 100 ≠ (100 : ℚ) - 15 - 0.1 ∧
    phantom_near_face 100 = (100 : ℚ) - 2 * 15 - 0.1 ∧
    (phantom_surface 100).x0 = (100 : ℚ) - 15 - 0.1 := by
  refine ⟨?_, ?_, ?_⟩ <;>
    norm_num [phantom_near_face, phantom_surface]

/-- C7 amended: for every distance `d` the phantom sphere has radius 15 and
centre offset `d - 15 - 0.1`, so its near face sits at `d - 2·15 - 0.1` and its
far face at `d - 0.1`; the outer boundary is a sphere of radius `d` whose
boundary condition is `"vacuum"` (absorbing), not `"reflective"`. -/
theorem phantom_geometry_layout (d : ℚ) :
    (phantom_surface d).r = 15 ∧
    (phantom_surface d).x0 = d - 15 - 0.1 ∧
    phantom_near_face d = d - 2 * 15 - 0.1 ∧
    phantom_far_face d = d - 0.1 ∧
    (outer_surface d).r = d ∧
    (outer_surface d).boundary_type = "vacuum" ∧
    (outer_surface d).boundary_type ≠ "reflective" := by
  refine ⟨rfl, ?_, ?_, ?_, rfl, rfl, ?_⟩
  · show d - 15.1 = d - 15 - 0.1
    ring
  · show d - 15.1 - 15 = d - 2 * 15 - 0.1
    ring
  · show d - 15.1 + 15 = d - 0.1
    ring
  · show ("vacuum" : String) ≠ "reflective"
    decide

/-- C8 counterexample: the distance 20 exceeds `15.1`, yet the point source at
the origin lies inside the phantom region, so the phantom and the source are
not separated there. -/
theorem source_inside_phantom_at_twenty :
    (15.1 : ℚ) < 20 ∧ phantom_region 20 0 0 0 := by
  constructor <;>
    norm_num [phantom_region, neg_side, phantom_surface]

/-- C8 amended: for every `d > 15.1` the phantom is strictly nested in the
boundary, both in the algebraic form `boundary radius > centre offset + radius`
and pointwise; the origin source avoids the phantom region exactly when
`d ≥ 30.1`. -/
theorem nesting_invariant (d : ℚ) (hd : (15.1 : ℚ) < d) :
    nested_in_boundary d ∧
    (outer_surface d).r > (phantom_surface d).x0 + (phantom_surface d).r ∧
    phantom_inside_boundary d ∧
    (¬ phantom_region d 0 0 0 ↔ (30.1 : ℚ) ≤ d) := by
  have hx0 : (phantom_surface d).x0 = d - 15.1 := rfl
  have hx0pos : (0 : ℚ) < d - 15.1 := by linarith
  refine ⟨?_, ?_, ?_, ?_⟩
  · unfold nested_in_boundary outer_surface
    rw [hx0, abs_of_pos hx0pos]
    show d - 15.1 + (15 : ℚ) < d
    linarith
  · show (phantom_surface d).x0 + (phantom_surface d).r < (outer_surface d).r
    rw [hx0]
    show d - 15.1 + (15 : ℚ) < d
    linarith
  · intro x y z hmem
    unfold phantom_region neg_side phantom_surface at hmem
    unfold neg_side outer_surface
    simp only at hmem ⊢
    have hu15 : x - (d - 15.1) < 15 := by
      nlinarith [sq_nonneg (x - (d - 15.1) - 15), sq_nonneg y, sq_nonneg z]
    nlinarith [mul_lt_mul_of_pos_right hu15 hx0pos, sq_nonneg y, sq_nonneg z]
  · unfold phantom_region neg_side phantom_surface
    simp only
    constructor
    · intro hnot
      by_contra hlt
      push_neg at hlt
      apply hnot
      have ha : (0 : ℚ) < 30.1 - d := by linarith
      have hb : (0 : ℚ) < d - 0.1 := by linarith
      nlinarith [mul_pos ha hb]
    · intro hge hmem
      have h15 : (15 : ℚ) ≤ d - 15.1 := by linarith
      nlinarith [mul_le_mul h15 h15 (by norm_num : (0 : ℚ) ≤ 15) (by linarith : (0 : ℚ) ≤ d - 15.1)]

/-- Instantiation of the C8 amended theorem at distance 31. -/
theorem nesting_invariant_witness :
    (15.1 : ℚ) < 31 ∧
    (nested_in_boundary 31 ∧
      (outer_surface 31).r > (phantom_surface 31).x0 + (phantom_surface 31).r ∧
      phantom_inside_boundary 31 ∧
      (¬ phantom_region 31 0 0 0 ↔ (30.1 : ℚ) ≤ 31)) :=
  ⟨by norm_num, nesting_invariant 31 (by norm_num)⟩

/-- Source line 96: `(4 / 3) * math.pi * math.pow(phantom_surface.r, 3)`. -/
noncomputable def phantom_volume (d : ℚ) : ℝ :=
  (4 / 3) * Real.pi * (((phantom_surface d).r : ℚ) : ℝ) ^ 3

/-- Embedding of source lines 126-140: the raw `dose_on_cell` tally mean is
multiplied by the particles per shot, divided by the phantom volume, and
scaled by `1e-12`, in that order. -/
noncomputable def extract_dose (d : ℚ) (tally_result : ℚ) (particles_per_shot : ℚ) : ℝ :=
  let total_dose : ℝ := (tally_result : ℝ) * (particles_per_shot : ℝ)
  let total_dose2 : ℝ := total_dose / phantom_volume d
  total_dose2 * 1e-12

/-- C2: the composed conversion chain equals
`mean · particles_per_shot / ((4/3)·π·15³) · 1e-12` sievert per shot. -/
theorem extract_dose_unit_chain (d m p : ℚ) :
    extract_dose d m p
      = (m : ℝ) * (p : ℝ) / ((4 / 3) * Real.pi * (15 : ℝ) ^ 3) * 1e-12 := by
  unfold extract_dose phantom_volume phantom_surface
  norm_num

/-- An `openmc.EnergyFunctionFilter`: breakpoint energies, response values and
the interpolation mode field. -/
structure EnergyFunctionFilter where
  energy : List ℚ
  y : List ℚ
  interpolation : String
deriving DecidableEq

/-- Modelled from the spec: the external library's default interpolation mode
of a freshly constructed `EnergyFunctionFilter` (its constructor is outside
this repository); the spec only relies on it being the library default and not
`"cubic"`. -/
def default_interpolation : String := "linear-linear"

/-- Source line 101: `openmc.EnergyFunctionFilter(energy_bins, dose_coeffs)`;
the constructor leaves the interpolation mode at the library default. -/
def mkEnergyFunctionFilter (energy_bins dose_coeffs : List ℚ) : EnergyFunctionFilter :=
  ⟨energy_bins, dose_coeffs, default_interpolation⟩

/-- Source line 102: `energy_function_filter.interpolation == "cubic"` is an
equality test producing a boolean. -/
def interpolation_check (f : EnergyFunctionFilter) : Bool :=
  f.interpolation == "cubic"

/-- Source lines 101-102 together: construct the filter, evaluate the equality
test, discard its value, and keep the filter. -/
def build_energy_function_filter (energy_bins dose_coeffs : List ℚ) : EnergyFunctionFilter :=
  let f := mkEnergyFunctionFilter energy_bins dose_coeffs
  let _ := interpolation_check f
  f

/-- Run-control settings, source lines 79-84. -/
structure SimSettings where
  batches : ℕ
  inactive : ℕ
  particles : ℕ
  run_mode : String
deriving DecidableEq

/-- The `openmc.IndependentSource` of lines 86-90: particle type, isotropic
angle, a single discrete energy, and a point location. -/
structure SourceSpec where
  particle : String
  angle_isotropic : Bool
  energy : ℚ
  space_point : ℚ × ℚ × ℚ
deriving DecidableEq

/-- Everything `simulate_dose` assembles before calling `model.run()`:
surfaces, settings, source, the dose-tally energy-function filter and the
tally name (lines 63-122). -/
structure SimConfig where
  phantom : Sphere
  outer : Sphere
  settings : SimSettings
  source : SourceSpec
  energy_function_filter : EnergyFunctionFilter
  tally_name : String
deriving DecidableEq

/-- The configuration `simulate_dose` builds for a given distance, particle
and energy (source lines 63-122); the coefficient table stands for the
`dose_coefficients` call of lines 98-100. -/
def build_sim_config (table : List (ℚ × ℚ)) (distance_from_source : ℚ)
    (particle : String) (energy : ℚ) : SimConfig :=
  ⟨phantom_surface distance_from_source,
   outer_surface distance_from_source,
   ⟨30, 0, 6000000, "fixed source"⟩,
   ⟨particle, true, energy, (0, 0, 0)⟩,
   build_energy_function_filter (table.map Prod.fst) (table.map Prod.snd),
   "dose_on_cell"⟩

/-- Modelled from the spec: the spec's `InvalidGeometry` failure mode (§7) as
one outcome of the pre-engine phase, the other being that control reaches
`model.run()` with the assembled configuration.  The source itself contains no
construct that raises `InvalidGeometry`. -/
inductive SimOutcome where
  | invalidGeometry : SimOutcome
  | engineInvoked : SimConfig → SimOutcome
deriving DecidableEq

/-- The pre-engine phase of `simulate_dose` (source lines 63-124): straight-line
code with no validation, so every call assembles the configuration and reaches
`model.run()`. -/
def simulate_dose_pre_engine (table : List (ℚ × ℚ)) (distance_from_source : ℚ)
    (particle : String) (energy : ℚ) : SimOutcome :=
  SimOutcome.engineInvoked (build_sim_config table distance_from_source particle energy)

/-- The analytic model with Python's division-by-zero semantics made explicit:
the sphere surface area `4·π·d²` is zero exactly when `d = 0`, and dividing a
float by `0.0` raises `ZeroDivisionError`. -/
noncomputable def manual_dose_calc_checked (table : List (ℚ × ℚ)) (particles_per_shot : ℚ)
    (distance_from_source : ℚ) (particle_energy : ℚ) : Option ℝ :=
  if distance_from_source = 0 then none
  else some (manual_dose_calc table particles_per_shot distance_from_source particle_energy)

/-- C5 counterexample: at the non-positive distance `-1` nothing fails before
the transport engine: the pre-engine phase reaches `model.run()` rather than
an `InvalidGeometry` condition, and the analytic model returns a value. -/
theorem negative_distance_reaches_engine :
    (-1 : ℚ) ≤ 0 ∧
    simulate_dose_pre_engine demo_table (-1) "neutron" 14000000 ≠ SimOutcome.invalidGeometry ∧
    (manual_dose_calc_checked demo_table 1 (-1) 1).isSome = true := by
  refine ⟨by norm_num, by simp [simulate_dose_pre_engine], ?_⟩
  rw [manual_dose_calc_checked, if_neg (by norm_num)]
  rfl

/-- C5 amended: the code performs no distance validation.  For every distance,
including zero and negative ones, the pre-engine phase assembles the
configuration and invokes the transport engine, raising no `InvalidGeometry`;
the analytic model fails — with a division-by-zero, not `InvalidGeometry` —
exactly when the distance is zero. -/
theorem no_distance_validation (table : List (ℚ × ℚ)) (p d E : ℚ) (particle : String) :
    simulate_dose_pre_engine table d particle E
      = SimOutcome.engineInvoked (build_sim_config table d particle E) ∧
    (manual_dose_calc_checked table p d E = none ↔ d = 0) := by
  refine ⟨rfl, ?_⟩
  by_cases h : d = 0
  · simp [manual_dose_calc_checked, h]
  · simp [manual_dose_calc_checked, h]

/-- C6 counterexample: at distance 10 no `InvalidGeometry` is raised — the
configuration is assembled and handed to the engine — even though the phantom
(centre `-5.1`, radius 15) is not nested inside the boundary of radius 10: the
point `(-20, 0, 0)` is in the phantom region yet outside the boundary. -/
theorem distance_ten_reaches_engine :
    simulate_dose_pre_engine demo_table 10 "neutron" 14000000
      = SimOutcome.engineInvoked (build_sim_config demo_table 10 "neutron" 14000000) ∧
    (phantom_surface 10).x0 = -5.1 ∧
    ¬ nested_in_boundary 10 ∧
    phantom_region 10 (-20) 0 0 ∧
    ¬ neg_side (outer_surface 10) (-20) 0 0 := by
  refine ⟨rfl, ?_, ?_, ?_, ?_⟩
  · norm_num [phantom_surface]
  · rw [nested_in_boundary]
    norm_num [phantom_surface, outer_surface, abs_of_neg, show (10 : ℚ) - 15.1 < 0 by norm_num]
  · norm_num [phantom_region, neg_side, phantom_surface]
  · norm_num [neg_side, outer_surface]

/-- C6 amended: the geometry construction validates nothing: for every
distance below `15.1` (and indeed every distance) it assembles the
configuration and reaches the engine instead of raising `InvalidGeometry`;
within that range the phantom actually fits inside the boundary exactly when
the distance exceeds `15.05`. -/
theorem short_distance_no_invalid_geometry (table : List (ℚ × ℚ)) (d E : ℚ)
    (particle : String) (hd : d < 15.1) :
    simulate_dose_pre_engine table d particle E
      = SimOutcome.engineInvoked (build_sim_config table d particle E) ∧
    (nested_in_boundary d ↔ (15.05 : ℚ) < d) := by
  refine ⟨rfl, ?_⟩
  have hx0 : (phantom_surface d).x0 = d - 15.1 := rfl
  have hneg : (phantom_surface d).x0 < 0 := by
    rw [hx0]
    linarith
  rw [nested_in_boundary, abs_of_neg hneg, hx0]
  show -(d - 15.1) + (15 : ℚ) < d ↔ (15.05 : ℚ) < d
  constructor <;> intro h <;> linarith

/-- Instantiation of the C6 amended theorem at distance 10. -/
theorem short_distance_no_invalid_geometry_witness :
    (10 : ℚ) < 15.1 ∧
    (simulate_dose_pre_engine demo_table 10 "photon" 16750000
        = SimOutcome.engineInvoked (build_sim_config demo_table 10 "photon" 16750000) ∧
      (nested_in_boundary 10 ↔ (15.05 : ℚ) < 10)) :=
  ⟨by norm_num,
    short_distance_no_invalid_geometry demo_table 10 16750000 "photon" (by norm_num)⟩

/-- C10: building the tally's energy-function filter never writes the
interpolation field: line 102 is an equality comparison whose boolean result
(false, since the default mode is not `"cubic"`) is discarded, so the built
filter keeps the library default and cubic interpolation is never selected. -/
theorem energy_function_filter_unchanged (energy_bins dose_coeffs : List ℚ)
    (table : List (ℚ × ℚ)) (d E : ℚ) (particle : String) :
    build_energy_function_filter energy_bins dose_coeffs
      = mkEnergyFunctionFilter energy_bins dose_coeffs ∧
    (build_energy_function_filter energy_bins dose_coeffs).interpolation
      = default_interpolation ∧
    (build_energy_function_filter energy_bins dose_coeffs).interpolation ≠ "cubic" ∧
    interpolation_check (build_energy_function_filter energy_bins dose_coeffs) = false ∧
    (build_sim_config table d particle E).energy_function_filter.interpolation ≠ "cubic" := by
  refine ⟨rfl, rfl, ?_, ?_, ?_⟩
  · show default_interpolation ≠ "cubic"
    decide
  · show (default_interpolation == "cubic") = false
    decide
  · show default_interpolation ≠ "cubic"
    decide

/-- Embedding of `simulate_dose` (source lines 62-153) with the transport
engine abstracted as a function from the assembled configuration to the raw
`dose_on_cell` tally mean read from the statepoint (lines 124-130).  Returns
the pair `(total_dose, calculated_dose)` of line 153. -/
noncomputable def simulate_dose (engine : SimConfig → ℚ) (table : List (ℚ × ℚ))
    (distance_from_source : ℚ) (particle : String)
    (particles_per_shot : ℚ) (energy : ℚ) : ℝ × ℝ :=
  let config := build_sim_config table distance_from_source particle energy
  let tally_result := engine config
  let total_dose := extract_dose distance_from_source tally_result particles_per_shot
  let calculated_dose := manual_dose_calc table particles_per_shot distance_from_source energy
  (total_dose, calculated_dose)

/-- Embedding of the loop of `plot_dose_vs_distance` (source lines 156-163):
one `simulate_dose` call per distance, in list order.  The first component
records the configuration of each engine invocation performed; the second is
the result series of `(distance, simulated dose, analytic dose)` triples
(the code keeps the distances list and the two dose lists it zips against). -/
noncomputable def sweep (engine : SimConfig → ℚ) (table : List (ℚ × ℚ))
    (particle : String) (particles_per_shot : ℚ) (energy : ℚ) :
    List ℚ → List SimConfig × List (ℚ × ℝ × ℝ)
  | [] => ([], [])
  | d :: rest =>
    let r := simulate_dose engine table d particle particles_per_shot energy
    let s := sweep engine table particle particles_per_shot energy rest
    (build_sim_config table d particle energy :: s.1, (d, r.1, r.2) :: s.2)

/-- C9: the sweep emits exactly one `(distance, simulated, analytic)` triple
per input distance, in input order — explicitly, it equals the map of
`simulate_dose` over the distances — its output length matches the input
length, the distances of the triples are the input sequence itself, and on the
empty input it returns no results and performs no engine invocation. -/
theorem sweep_spec (engine : SimConfig → ℚ) (table : List (ℚ × ℚ))
    (particle : String) (particles_per_shot energy : ℚ) (ds : List ℚ) :
    sweep engine table particle particles_per_shot energy ds
      = (ds.map (fun d => build_sim_config table d particle energy),
         ds.map (fun d =>
           (d, (simulate_dose engine table d particle particles_per_shot energy).1,
               (simulate_dose engine table d particle particles_per_shot energy).2))) ∧
    (sweep engine table particle particles_per_shot energy ds).2.length = ds.length ∧
    (sweep engine table particle particles_per_shot energy ds).2.map Prod.fst = ds ∧
    sweep engine table particle particles_per_shot energy [] = ([], []) ∧
    (sweep engine table particle particles_per_shot energy ds).1.length = ds.length := by
  have hmain : ∀ l : List ℚ,
      sweep engine table particle particles_per_shot energy l
        = (l.map (fun d => build_sim_config table d particle energy),
           l.map (fun d =>
             (d, (simulate_dose engine table d particle particles_per_shot energy).1,
                 (simulate_dose engine table d particle particles_per_shot energy).2))) := by
    intro l
    induction l with
    | nil => rfl
    | cons d rest ih =>
      simp only [sweep, ih, List.map_cons]
  refine ⟨hmain ds, ?_, ?_, hmain [], ?_⟩
  · rw [hmain ds]
    simp
  · rw [hmain ds]
    simp only [List.map_map]
    have : (Prod.fst ∘ fun d =>
        ((d : ℚ), (simulate_dose engine table d particle particles_per_shot energy).1,
          (simulate_dose engine table d particle particles_per_shot energy).2))
        = fun d => d := rfl
    rw [this]
    exact List.map_id ds
  · rw [hmain ds]
    simp

end DoseWorkshop
